import Mathlib

/-!
Verification of the diagnostic-capture and session-synchronization engine of
the ccc_git serial-console tool (source: src/uart_250904_0003_.py).

Strings are modelled as `List Char`.  The Python regular expressions and
string predicates used by the engine are translated into executable Lean
matchers over `List Char`; character classes follow the ASCII/Latin-1
portion of the whitespace set used by CPython (`str.isspace`, regex \s).
-/

abbrev Str := List Char

/-- Whitespace characters (ASCII/Latin-1 portion of the CPython whitespace
class used by `str.strip`, `str.isspace` and regex \s). -/
def pyIsSpace (c : Char) : Bool :=
  c = ' ' || c = '\t' || c = '\n' || c = '\r' || c = '\x0b' || c = '\x0c' ||
  c = '\x1c' || c = '\x1d' || c = '\x1e' || c = '\x1f' || c = '\x85' || c = '\xa0'

/-- The regex character class [0-9A-Fa-f]. -/
def isHexC (c : Char) : Bool :=
  ('0' ≤ c && c ≤ '9') || ('a' ≤ c && c ≤ 'f') || ('A' ≤ c && c ≤ 'F')

/-- Python substring test `p in t`. -/
def containsSub (p : Str) : Str → Bool
  | [] => p.isEmpty
  | c :: cs => p.isPrefixOf (c :: cs) || containsSub p cs

lemma isPrefixOf_iff_exists (p l : Str) : p.isPrefixOf l = true ↔ ∃ v, l = p ++ v := by
  induction p generalizing l with
  | nil => simp [List.isPrefixOf]
  | cons a as ih =>
    cases l with
    | nil => simp [List.isPrefixOf]
    | cons b bs =>
      simp only [List.isPrefixOf, Bool.and_eq_true, beq_iff_eq, ih, List.cons_append,
        List.cons.injEq]
      constructor
      · rintro ⟨rfl, v, rfl⟩; exact ⟨v, rfl, rfl⟩
      · rintro ⟨v, rfl, rfl⟩; exact ⟨rfl, v, rfl⟩

/-- `containsSub p t` holds exactly when `p` occurs as a contiguous substring of `t`. -/
lemma containsSub_iff (p t : Str) : containsSub p t = true ↔ ∃ u v, t = u ++ p ++ v := by
  induction t with
  | nil =>
    simp only [containsSub, List.isEmpty_iff]
    constructor
    · rintro rfl; exact ⟨[], [], rfl⟩
    · rintro ⟨u, v, h⟩
      rcases List.append_eq_nil.mp h.symm with ⟨h1, h2⟩
      exact (List.append_eq_nil.mp h1).2
  | cons c cs ih =>
    simp only [containsSub, Bool.or_eq_true, isPrefixOf_iff_exists, ih]
    constructor
    · rintro (⟨v, hv⟩ | ⟨u, v, hv⟩)
      · exact ⟨[], v, by simp [hv]⟩
      · exact ⟨c :: u, v, by simp [hv]⟩
    · rintro ⟨u, v, hv⟩
      cases u with
      | nil => exact Or.inl ⟨v, by simpa using hv⟩
      | cons x xs =>
        simp only [List.cons_append, List.cons.injEq] at hv
        exact Or.inr ⟨xs, v, hv.2⟩

/-! ## Prompt synchronizer (source: `_any_prompt_in`, `inc_prompt_if_in`,
`get_prompt_seq`, `wait_for_next_prompt`) -/

/-- Source `_any_prompt_in`: some nonempty configured pattern occurs in `t`. -/
def any_prompt_in (pats : List Str) (t : Str) : Bool :=
  pats.any (fun p => !p.isEmpty && containsSub p t)

/-- Source `inc_prompt_if_in`: the receiver-path update of the prompt counter
for one decoded chunk. -/
def inc_prompt_if_in (pats : List Str) (seq : Nat) (t : Str) : Nat :=
  if !pats.isEmpty && any_prompt_in pats t then seq + 1 else seq

/-- Feeding a list of chunks through `inc_prompt_if_in` in order. -/
def observeAll (pats : List Str) (seq : Nat) (chunks : List Str) : Nat :=
  chunks.foldl (inc_prompt_if_in pats) seq

/-- A chunk contains at least one configured prompt marker as a substring. -/
def chunkHasMarker (pats : List Str) (t : Str) : Bool :=
  pats.any (fun p => containsSub p t)

/-- Source `wait_for_next_prompt` polling loop: successive readings of
`get_prompt_seq()` taken while `time.time() < deadline`; returns the first
reading that exceeds `prev` (the early-return branch), or `none` when the
deadline is reached. -/
def waitLoop (prev : Nat) : List Nat → Option Nat
  | [] => none
  | c :: rest => if prev < c then some c else waitLoop prev rest

/-- Source `wait_for_next_prompt`: `polls` are the counter readings observed
before the deadline, `finalRead` the reading taken after the deadline. -/
def wait_for_next_prompt (scriptWait : Bool) (prev : Nat) (polls : List Nat)
    (finalRead : Nat) : Nat :=
  if !scriptWait then prev
  else
    match waitLoop prev polls with
    | some c => c
    | none => finalRead

lemma observeAll_le (pats : List Str) (chunks : List Str) (init : Nat) :
    init ≤ observeAll pats init chunks := by
  induction chunks generalizing init with
  | nil => simp [observeAll]
  | cons t ts ih =>
    have h1 : init ≤ inc_prompt_if_in pats init t := by
      unfold inc_prompt_if_in; split <;> omega
    exact le_trans h1 (ih (inc_prompt_if_in pats init t))

lemma inc_prompt_if_in_eq (pats : List Str) (seq : Nat) (t : Str)
    (hp : ∀ p ∈ pats, p ≠ []) :
    inc_prompt_if_in pats seq t = seq + (if chunkHasMarker pats t then 1 else 0) := by
  unfold inc_prompt_if_in any_prompt_in chunkHasMarker
  cases pats with
  | nil => simp
  | cons q qs =>
    have heq : ((q :: qs).any fun p => !p.isEmpty && containsSub p t) =
        ((q :: qs).any fun p => containsSub p t) := by
      rw [Bool.eq_iff_iff]
      simp only [List.any_eq_true, Bool.and_eq_true, Bool.not_eq_true']
      constructor
      · rintro ⟨p, hm, _, h⟩
        exact ⟨p, hm, h⟩
      · rintro ⟨p, hm, h⟩
        refine ⟨p, hm, ?_, h⟩
        have hne := hp p hm
        cases p with
        | nil => exact absurd rfl hne
        | cons a as => rfl
    rw [heq]
    simp only [List.isEmpty_cons, Bool.not_false, Bool.true_and]
    by_cases h : ((q :: qs).any fun p => containsSub p t) = true <;> simp [h]

/-- C5: for every sequence of chunks fed through the observation path, the
prompt counter is non-decreasing, and its total increase equals the number of
chunks containing at least one configured (nonempty) prompt marker as a
substring, not the number of marker occurrences. -/
theorem observe_count (pats : List Str) (chunks : List Str) (init : Nat)
    (hp : ∀ p ∈ pats, p ≠ []) :
    (∀ l1 l2, chunks = l1 ++ l2 →
      observeAll pats init l1 ≤ observeAll pats init chunks) ∧
    observeAll pats init chunks = init + chunks.countP (chunkHasMarker pats) := by
  constructor
  · rintro l1 l2 rfl
    unfold observeAll
    rw [List.foldl_append]
    exact observeAll_le pats l2 _
  · induction chunks generalizing init with
    | nil => simp [observeAll]
    | cons t ts ih =>
      unfold observeAll at ih ⊢
      rw [List.foldl_cons, ih (inc_prompt_if_in pats init t),
        inc_prompt_if_in_eq pats init t hp, List.countP_cons]
      split <;> simp_all
      omega

theorem observe_count_witness :
    observeAll [['a']] 0 [['x', 'a'], ['b']] = 1 := by
  have h := (observe_count [['a']] [['x', 'a'], ['b']] 0 (by decide)).2
  simpa using h

/-- C8: with scripted prompt-waiting enabled, when the counter already exceeds
`prev` at the first poll the wait returns that counter value through the
early-return branch (the timeout branch `waitLoop = none` is not reached);
when the counter never exceeds `prev`, the loop runs to the deadline and the
wait returns the final reading, with no error signalled in either case. -/
theorem wait_for_next_prompt_spec (prev finalRead : Nat) (polls : List Nat) :
    (∀ c rest, polls = c :: rest → prev < c →
      waitLoop prev polls = some c ∧
      wait_for_next_prompt true prev polls finalRead = c) ∧
    ((∀ x ∈ polls, x ≤ prev) →
      waitLoop prev polls = none ∧
      wait_for_next_prompt true prev polls finalRead = finalRead) := by
  constructor
  · rintro c rest rfl hc
    have h1 : waitLoop prev (c :: rest) = some c := by
      unfold waitLoop; simp [hc]
    exact ⟨h1, by unfold wait_for_next_prompt; simp [h1]⟩
  · intro hall
    have h1 : waitLoop prev polls = none := by
      induction polls with
      | nil => rfl
      | cons x xs ih =>
        have hx : ¬ prev < x := by
          have := hall x (by simp)
          omega
        unfold waitLoop
        simp only [hx, if_false]
        exact ih (fun y hy => hall y (by simp [hy]))
    exact ⟨h1, by unfold wait_for_next_prompt; simp [h1]⟩

theorem wait_for_next_prompt_spec_witness :
    wait_for_next_prompt true 0 [2, 3] 5 = 2 ∧
    wait_for_next_prompt true 7 [1, 2] 4 = 4 := by
  constructor
  · exact ((wait_for_next_prompt_spec 0 5 [2, 3]).1 2 [3] rfl (by decide)).2
  · exact ((wait_for_next_prompt_spec 7 4 [1, 2]).2 (by decide)).2

/-! ## Dump capture state machine (source: `_i2c_capture_feed`,
`_maybe_finalize_partial`, `_I2C_HEADER_RE`, `_I2C_DATA_ROW_RE`,
`_line_is_prompt_start`, `_LAST_ADDR`) -/

/-- Python `line.rstrip(CR)`: remove every trailing carriage return. -/
def rstripCR (l : Str) : Str := (l.reverse.dropWhile (fun c => c = '\r')).reverse

/-- Regex \s+ : at least one whitespace character, maximal munch (no later
regex item can match a whitespace character, so maximal munch is exact). -/
def wsRun : Str → Option Str
  | [] => none
  | c :: cs => if pyIsSpace c then some (cs.dropWhile pyIsSpace) else none

/-- Regex [0-9A-Fa-f]\x7b2\x7d : exactly two hex digits. -/
def hex2tok : Str → Option Str
  | a :: b :: cs => if isHexC a && isHexC b then some cs else none
  | _ => none

/-- The (?:\s+[0-9A-Fa-f]\x7b2\x7d)\x7bn\x7d tail of the header pattern, followed by \s*$. -/
def headerTail : Nat → Str → Bool
  | 0, rest => rest.all pyIsSpace
  | n + 1, rest =>
    match wsRun rest with
    | none => false
    | some r1 =>
      match hex2tok r1 with
      | none => false
      | some r2 => headerTail n r2

/-- Source `_I2C_HEADER_RE`: leading whitespace, literal 00, then fifteen
whitespace-separated two-hex-digit column labels, then optional whitespace. -/
def isHeaderLine (l : Str) : Bool :=
  match wsRun l with
  | none => false
  | some r =>
    match r with
    | '0' :: '0' :: r2 => headerTail 15 r2
    | _ => false

/-- Tail of `_I2C_DATA_ROW_RE` after the first byte token: either optional
trailing whitespace and end, or (at most `n` more times) whitespace and a
further two-hex-digit token. -/
def rowBytesAux : Nat → Str → Bool
  | n, rest =>
    match hex2tok rest with
    | none => false
    | some r =>
      if r.all pyIsSpace then true
      else
        match wsRun r with
        | none => false
        | some r2 =>
          match n with
          | 0 => false
          | m + 1 => rowBytesAux m r2

/-- Source `_I2C_DATA_ROW_RE`: a two-hex-digit address, a colon, whitespace,
then one to sixteen whitespace-separated two-hex-digit byte tokens and
optional trailing whitespace. -/
def isDataRowLine (l : Str) : Bool :=
  match l with
  | a :: b :: ':' :: rest =>
    isHexC a && isHexC b &&
      (match wsRun rest with
       | none => false
       | some r => rowBytesAux 15 r)
  | _ => false

/-- Source pattern `^00:\s` (bare first data row without a header). -/
def isBareFirstRow (l : Str) : Bool :=
  match l with
  | '0' :: '0' :: ':' :: c :: _ => pyIsSpace c
  | _ => false

/-- Source `line.lower().startswith(_LAST_ADDR + colon)` with `_LAST_ADDR = f0`. -/
def startsLastAddr (l : Str) : Bool :=
  match l with
  | a :: b :: c :: _ => a.toLower = 'f' && b.toLower = '0' && c.toLower = ':'
  | _ => false

/-- Source `_line_is_prompt_start`: some nonempty configured pattern is a
line prefix. -/
def line_is_prompt_start (pats : List Str) (l : Str) : Bool :=
  pats.any (fun p => !p.isEmpty && p.isPrefixOf l)

/-- Source `line.strip()` truthiness: the line has a non-whitespace character. -/
def hasContent (l : Str) : Bool := !l.all pyIsSpace

/-- The sentinel pushed when a capture starts from a bare first data row. -/
def noHeaderMark : Str := ['#', 'N', 'O', '_', 'H', 'E', 'A', 'D', 'E', 'R', '#']

/-- The default `PROMPT_PATTERNS` configuration of the source. -/
def i2cPrompts : List Str := [['i', '2', 'c', '>']]

/-- Finalization reason: terminal-address completion, prompt interruption, or
buffer overflow. -/
inductive CapReason where
  | complete
  | promptInterrupt
  | overflow
deriving DecidableEq

/-- One finalized (or best-effort salvaged) capture. -/
structure FinalizedDump where
  reason : CapReason
  lines : List Str
deriving DecidableEq

/-- Capture machine state: trailing fragment, Idle/Capturing flag, and the
in-progress line buffer. -/
structure CapState where
  fragment : Str
  active : Bool
  lines : List Str
deriving DecidableEq

def initCapState : CapState := ⟨[], false, []⟩

/-- The buffer update applied to an accepted line while capturing: a matching
data row or an exact duplicate of the first buffered line is appended unless
it duplicates the first line; any other non-blank line is appended verbatim. -/
def appendLine (buf : List Str) (line : Str) : List Str :=
  if isDataRowLine line || line = buf.headD [] then
    (if line ≠ buf.headD [] then buf ++ [line] else buf)
  else
    (if hasContent line then buf ++ [line] else buf)

/-- The `if _i2c_capture_active:` block of the feed loop: update the buffer
with `appendLine`, then finalize with reason complete when the line carries
the terminal row address, finalize with reason overflow when the buffer
exceeds the hard bound of 60 lines, and otherwise keep capturing. -/
def activeStep (line : Str) (buf : List Str) :
    (Bool × List Str) × List FinalizedDump :=
  if startsLastAddr line then
    ((false, []), [⟨CapReason.complete, appendLine buf line⟩])
  else if (appendLine buf line).length > 60 then
    ((false, []),
      if (appendLine buf line).isEmpty then []
      else [⟨CapReason.overflow, appendLine buf line⟩])
  else ((true, appendLine buf line), [])

/-- One complete line through the body of the `_i2c_capture_feed` loop.
State is (capturing flag, buffered lines); the result also carries the
finalizations emitted for this line.  A bare first data row seen while idle
starts a capture with the no-header sentinel and the same line then falls
through to the capturing block, as in the source. -/
def lineStep (pats : List Str) (st : Bool × List Str) (line0 : Str) :
    (Bool × List Str) × List FinalizedDump :=
  if !pats.isEmpty && line_is_prompt_start pats (rstripCR line0) then
    if st.1 then
      ((false, []), if st.2.isEmpty then [] else [⟨CapReason.promptInterrupt, st.2⟩])
    else (st, [])
  else if !st.1 && isHeaderLine (rstripCR line0) then
    ((true, [rstripCR line0]), [])
  else if st.1 then activeStep (rstripCR line0) st.2
  else if isBareFirstRow (rstripCR line0) then
    activeStep (rstripCR line0) [noHeaderMark]
  else (st, [])

/-- Fold `lineStep` over the complete lines extracted from the fragment. -/
def processLines (pats : List Str) : List Str → (Bool × List Str) →
    (Bool × List Str) × List FinalizedDump
  | [], st => (st, [])
  | l :: ls, st =>
    let r1 := lineStep pats st l
    let r2 := processLines pats ls r1.1
    (r2.1, r1.2 ++ r2.2)

/-- Split a character stream into the complete (newline-terminated) lines and
the trailing fragment after the last newline, as the feed loop does with
repeated `split` at the first newline. -/
def splitNL : Str → List Str × Str
  | [] => ([], [])
  | c :: cs =>
    let p := splitNL cs
    if c = '\n' then ([] :: p.1, p.2)
    else
      match p.1 with
      | [] => ([], c :: p.2)
      | l :: ls => ((c :: l) :: ls, p.2)

/-- Source `_i2c_capture_feed`: append the chunk to the fragment, process
every complete line, retain the text after the last newline. -/
def i2c_capture_feed (pats : List Str) (st : CapState) (chunk : Str) :
    CapState × List FinalizedDump :=
  if chunk.isEmpty then (st, [])
  else
    let frag := st.fragment ++ chunk
    let sp := splitNL frag
    let r := processLines pats sp.1 (st.active, st.lines)
    (⟨sp.2, r.1.1, r.1.2⟩, r.2)

example : isHeaderLine (("     00 01 02 03 04 05 06 07 08 09 0a 0b 0c 0d 0e 0f").toList) = true := by decide
example : isHeaderLine (("     00 01 02").toList) = false := by decide
example : isDataRowLine (("00: 11 22 33 44 55 66 77 88 99 aa bb cc dd ee ff 00").toList) = true := by decide
example : isDataRowLine (("f0: 11 22").toList) = true := by decide
example : isDataRowLine (("f0:").toList) = false := by decide
example : startsLastAddr (("F0: aa").toList) = true := by decide
example : isBareFirstRow (("00: aa").toList) = true := by decide

lemma appendLine_length (buf : List Str) (line : Str) :
    (appendLine buf line).length ≤ buf.length + 1 := by
  unfold appendLine
  split_ifs <;> simp

lemma activeStep_bound (line : Str) (buf : List Str) (h : buf.length ≤ 60) :
    (activeStep line buf).1.2.length ≤ 60 ∧
    ∀ d ∈ (activeStep line buf).2, d.lines.length ≤ 61 := by
  have hap := appendLine_length buf line
  unfold activeStep
  split_ifs with h1 h2 h3
  · refine ⟨by simp, ?_⟩
    intro d hd
    simp only [List.mem_singleton] at hd
    subst hd
    simp only []
    omega
  · exact ⟨by simp, by intro d hd; simp at hd⟩
  · refine ⟨by simp, ?_⟩
    intro d hd
    simp only [List.mem_singleton] at hd
    subst hd
    simp only []
    omega
  · refine ⟨?_, by intro d hd; simp at hd⟩
    simp only []
    omega

lemma lineStep_bound (pats : List Str) (a : Bool) (buf : List Str) (l : Str)
    (h : buf.length ≤ 60) :
    (lineStep pats (a, buf) l).1.2.length ≤ 60 ∧
    ∀ d ∈ (lineStep pats (a, buf) l).2, d.lines.length ≤ 61 := by
  unfold lineStep
  split_ifs with h1 h2 h3 h4 h5 h6
  · exact ⟨by simp, by intro d hd; simp at hd⟩
  · refine ⟨by simp, ?_⟩
    intro d hd
    simp only [List.mem_singleton] at hd
    subst hd
    show buf.length ≤ 61
    omega
  · exact ⟨h, by intro d hd; simp at hd⟩
  · exact ⟨by simp, by intro d hd; simp at hd⟩
  · simpa using activeStep_bound (rstripCR l) buf h
  · simpa using activeStep_bound (rstripCR l) [noHeaderMark] (by simp [noHeaderMark])
  · exact ⟨h, by intro d hd; simp at hd⟩

lemma processLines_bound (pats : List Str) (ls : List Str) (st : Bool × List Str)
    (h : st.2.length ≤ 60) :
    (processLines pats ls st).1.2.length ≤ 60 ∧
    ∀ d ∈ (processLines pats ls st).2, d.lines.length ≤ 61 := by
  induction ls generalizing st with
  | nil => exact ⟨h, by intro d hd; simp [processLines] at hd⟩
  | cons l ls ih =>
    obtain ⟨a, buf⟩ := st
    have hb := lineStep_bound pats a buf l h
    have hrec := ih (lineStep pats (a, buf) l).1 hb.1
    refine ⟨hrec.1, ?_⟩
    intro d hd
    have hm : d ∈ (lineStep pats (a, buf) l).2 ++
        (processLines pats ls (lineStep pats (a, buf) l).1).2 := hd
    rcases List.mem_append.mp hm with h1 | h2
    · exact hb.2 d h1
    · exact hrec.2 d h2

/-- C10: from any state whose in-progress buffer holds at most 60 lines
(true initially and preserved forever), feeding any chunk leaves the buffer
with at most 60 lines, and every finalized dump the call emits — for the
terminal-address, prompt-interrupt or overflow reason — holds at most 61
lines, so the capture buffer never grows without bound. -/
theorem capture_buffer_bounded (pats : List Str) (st : CapState) (chunk : Str)
    (h : st.lines.length ≤ 60) :
    (i2c_capture_feed pats st chunk).1.lines.length ≤ 60 ∧
    ∀ d ∈ (i2c_capture_feed pats st chunk).2, d.lines.length ≤ 61 := by
  unfold i2c_capture_feed
  split_ifs with hc
  · exact ⟨h, by intro d hd; simp at hd⟩
  · have hp := processLines_bound pats (splitNL (st.fragment ++ chunk)).1
      (st.active, st.lines) h
    exact ⟨hp.1, hp.2⟩

theorem capture_buffer_bounded_witness :
    initCapState.lines.length ≤ 60 ∧
    ((i2c_capture_feed i2cPrompts initCapState ['a', '\n']).1.lines.length ≤ 60 ∧
     ∀ d ∈ (i2c_capture_feed i2cPrompts initCapState ['a', '\n']).2,
        d.lines.length ≤ 61) :=
  ⟨by decide, capture_buffer_bounded i2cPrompts initCapState ['a', '\n'] (by decide)⟩

lemma ws_not_hex (c : Char) (h : pyIsSpace c = true) : isHexC c = false := by
  unfold pyIsSpace at h
  simp only [Bool.or_eq_true, decide_eq_true_eq, or_assoc] at h
  rcases h with rfl | rfl | rfl | rfl | rfl | rfl | rfl | rfl | rfl | rfl | rfl | rfl <;> decide

lemma isHeaderLine_head (l : Str) (h : isHeaderLine l = true) :
    ∃ c cs, l = c :: cs ∧ pyIsSpace c = true := by
  cases l with
  | nil => simp [isHeaderLine, wsRun] at h
  | cons c cs =>
    by_cases hc : pyIsSpace c = true
    · exact ⟨c, cs, rfl, hc⟩
    · simp [isHeaderLine, wsRun, hc] at h

lemma isDataRowLine_head (l : Str) (h : isDataRowLine l = true) :
    ∃ c cs, l = c :: cs ∧ isHexC c = true := by
  unfold isDataRowLine at h
  split at h
  · next a b rest =>
      simp only [Bool.and_eq_true] at h
      exact ⟨a, b :: ':' :: rest, rfl, by tauto⟩
  · simp at h

lemma prompt_start_head (l : Str) (h : line_is_prompt_start i2cPrompts l = true) :
    ∃ cs, l = 'i' :: cs := by
  unfold line_is_prompt_start i2cPrompts at h
  simp only [List.any_cons, List.any_nil, Bool.or_false, Bool.and_eq_true] at h
  obtain ⟨v, hv⟩ := (isPrefixOf_iff_exists _ _).mp h.2
  exact ⟨'2' :: 'c' :: '>' :: v, by simpa using hv⟩

lemma data_row_not_prompt (r : Str) (h : isDataRowLine r = true) :
    line_is_prompt_start i2cPrompts r = false := by
  cases hb : line_is_prompt_start i2cPrompts r
  · rfl
  · obtain ⟨cs, hcs⟩ := prompt_start_head r hb
    obtain ⟨c, cs2, heq, hhex⟩ := isDataRowLine_head _ h
    rw [hcs] at heq
    injection heq with h1 h2
    rw [← h1] at hhex
    exact absurd hhex (by decide)

lemma header_not_prompt (hl : Str) (h : isHeaderLine hl = true) :
    line_is_prompt_start i2cPrompts hl = false := by
  cases hb : line_is_prompt_start i2cPrompts hl
  · rfl
  · obtain ⟨cs, hcs⟩ := prompt_start_head hl hb
    obtain ⟨c, cs2, heq, hws⟩ := isHeaderLine_head _ h
    rw [hcs] at heq
    injection heq with h1 h2
    rw [← h1] at hws
    exact absurd hws (by decide)

lemma data_row_ne_header (r hl : Str) (hr : isDataRowLine r = true)
    (hh : isHeaderLine hl = true) : r ≠ hl := by
  obtain ⟨c, cs, hceq, hhex⟩ := isDataRowLine_head _ hr
  obtain ⟨c2, cs2, hceq2, hws⟩ := isHeaderLine_head _ hh
  intro heq
  rw [hceq, hceq2] at heq
  injection heq with h1 h2
  rw [h1] at hhex
  rw [ws_not_hex c2 hws] at hhex
  exact absurd hhex (by simp)

lemma rstripCR_eq_self (l : Str) (h : '\r' ∉ l) : rstripCR l = l := by
  have hd : List.dropWhile (fun c => c = '\r') l.reverse = l.reverse := by
    cases hrev : l.reverse with
    | nil => simp
    | cons c cs =>
      have hc : ¬(c = '\r') := by
        intro hceq
        apply h
        rw [← List.mem_reverse, hrev, hceq]
        exact List.mem_cons_self _ _
      rw [List.dropWhile_cons, if_neg (by simp [hc])]
  unfold rstripCR
  rw [hd, List.reverse_reverse]

lemma splitNL_append_newline (l t : Str) (h : '\n' ∉ l) :
    splitNL (l ++ '\n' :: t) = (l :: (splitNL t).1, (splitNL t).2) := by
  induction l with
  | nil => simp [splitNL]
  | cons c cs ih =>
    have hc : ¬(c = '\n') := fun hh => h (by rw [hh]; exact List.mem_cons_self _ _)
    have ih' := ih (fun hm => h (List.mem_cons_of_mem c hm))
    simp only [List.cons_append, splitNL, List.append_eq, ih', hc, if_false]

lemma splitNL_terminated (ls : List Str) (h : ∀ l ∈ ls, '\n' ∉ l) :
    splitNL ((ls.map (fun l => l ++ ['\n'])).flatten) = (ls, []) := by
  induction ls with
  | nil => simp [splitNL]
  | cons l ls ih =>
    have h1 : '\n' ∉ l := h l (by simp)
    have h2 := ih (fun x hx => h x (by simp [hx]))
    simp only [List.map_cons, List.flatten_cons, List.append_assoc, List.singleton_append]
    rw [splitNL_append_newline l _ h1, h2]

lemma lineStep_header (buf0 : List Str) (hl : Str)
    (hh : isHeaderLine hl = true) (hcr : '\r' ∉ hl) :
    lineStep i2cPrompts (false, buf0) hl = ((true, [hl]), []) := by
  have hr : rstripCR hl = hl := rstripCR_eq_self _ hcr
  have hp : line_is_prompt_start i2cPrompts hl = false := header_not_prompt _ hh
  unfold lineStep
  rw [hr]
  simp [hp, hh]

lemma lineStep_data_row (buf : List Str) (r : Str)
    (hd : isDataRowLine r = true) (hcr : '\r' ∉ r)
    (hf0 : startsLastAddr r = false)
    (hne : r ≠ buf.headD [])
    (hlen : buf.length + 1 ≤ 60) :
    lineStep i2cPrompts (true, buf) r = ((true, buf ++ [r]), []) := by
  have hr : rstripCR r = r := rstripCR_eq_self _ hcr
  have hp : line_is_prompt_start i2cPrompts r = false := data_row_not_prompt r hd
  have hne2 : r ≠ buf.head?.getD [] := by
    rw [← List.headD_eq_head?]
    exact hne
  have happ : appendLine buf r = buf ++ [r] := by
    unfold appendLine
    simp [hd, hne2]
  have hlen2 : ¬((buf ++ [r]).length > 60) := by
    simp only [List.length_append, List.length_cons, List.length_nil]
    omega
  unfold lineStep activeStep
  rw [hr]
  simp only [List.length_append, List.length_cons, List.length_nil] at hlen2
  simp [hp, happ, hf0]
  omega

lemma lineStep_last_row (buf : List Str) (r : Str)
    (hd : isDataRowLine r = true) (hcr : '\r' ∉ r)
    (hf0 : startsLastAddr r = true)
    (hne : r ≠ buf.headD []) :
    lineStep i2cPrompts (true, buf) r =
      ((false, []), [⟨CapReason.complete, buf ++ [r]⟩]) := by
  have hr : rstripCR r = r := rstripCR_eq_self _ hcr
  have hp : line_is_prompt_start i2cPrompts r = false := data_row_not_prompt r hd
  have hne2 : r ≠ buf.head?.getD [] := by
    rw [← List.headD_eq_head?]
    exact hne
  have happ : appendLine buf r = buf ++ [r] := by
    unfold appendLine
    simp [hd, hne2]
  unfold lineStep activeStep
  rw [hr]
  simp [hp, happ, hf0]

lemma lineStep_prompt_line (buf : List Str) (pl : Str)
    (hp : line_is_prompt_start i2cPrompts pl = true) (hcr : '\r' ∉ pl)
    (hbne : buf ≠ []) :
    lineStep i2cPrompts (true, buf) pl =
      ((false, []), [⟨CapReason.promptInterrupt, buf⟩]) := by
  have hr : rstripCR pl = pl := rstripCR_eq_self _ hcr
  have hbe : buf.isEmpty = false := by
    cases buf with
    | nil => exact absurd rfl hbne
    | cons x xs => rfl
  unfold lineStep
  rw [hr]
  simp [hp, hbe]
  intro hF
  exact absurd hF (by simp [i2cPrompts])

lemma processLines_data_rows (rows : List Str) (buf : List Str) (h0 : Str)
    (hne : buf ≠ []) (hhead : buf.headD [] = h0)
    (hlen : buf.length + rows.length ≤ 60)
    (hr : ∀ r ∈ rows, isDataRowLine r = true ∧ '\r' ∉ r ∧
          startsLastAddr r = false ∧ r ≠ h0) :
    processLines i2cPrompts rows (true, buf) = ((true, buf ++ rows), []) := by
  induction rows generalizing buf with
  | nil => simp [processLines]
  | cons r rs ih =>
    obtain ⟨hdr, hcr, hf0, hneq⟩ := hr r (by simp)
    have hlen1 : buf.length + 1 ≤ 60 := by
      simp only [List.length_cons] at hlen
      omega
    have hstep := lineStep_data_row buf r hdr hcr hf0 (hhead ▸ hneq) hlen1
    have hne2 : buf ++ [r] ≠ [] := by simp
    have hhead2 : (buf ++ [r]).headD [] = h0 := by
      cases buf with
      | nil => exact absurd rfl hne
      | cons x xs => simpa using hhead
    have hlen2 : (buf ++ [r]).length + rs.length ≤ 60 := by
      simp only [List.length_append, List.length_cons, List.length_nil]
      simp only [List.length_cons] at hlen
      omega
    have hrec := ih (buf ++ [r]) hne2 hhead2 hlen2
      (fun x hx => hr x (by simp [hx]))
    simp only [processLines, hstep, hrec]
    simp [List.append_assoc]

lemma processLines_append (pats : List Str) (l1 l2 : List Str) (st : Bool × List Str) :
    processLines pats (l1 ++ l2) st =
      ((processLines pats l2 (processLines pats l1 st).1).1,
       (processLines pats l1 st).2 ++
         (processLines pats l2 (processLines pats l1 st).1).2) := by
  induction l1 generalizing st with
  | nil => simp [processLines]
  | cons x xs ih => simp [processLines, ih, List.append_assoc]

lemma processLines_nil (pats : List Str) (st : Bool × List Str) :
    processLines pats [] st = (st, []) := rfl

lemma processLines_cons (pats : List Str) (l : Str) (ls : List Str)
    (st : Bool × List Str) :
    processLines pats (l :: ls) st =
      ((processLines pats ls (lineStep pats st l).1).1,
       (lineStep pats st l).2 ++ (processLines pats ls (lineStep pats st l).1).2) := rfl

/-- C1: feeding, from Idle, a newline-terminated valid 16-column header line
followed by sixteen newline-terminated valid data rows of which exactly the
last carries the terminal row address f0 produces exactly one finalized dump
with reason complete holding all seventeen lines (header plus sixteen rows),
and leaves the machine Idle with empty buffer and empty fragment. -/
theorem capture_complete_dump (header rlast : Str) (rows : List Str)
    (hh : isHeaderLine header = true) (hhcr : '\r' ∉ header) (hhnl : '\n' ∉ header)
    (hlen : rows.length = 15)
    (hrows : ∀ r ∈ rows, isDataRowLine r = true ∧ '\r' ∉ r ∧ '\n' ∉ r ∧
        startsLastAddr r = false)
    (hlast : isDataRowLine rlast = true ∧ '\r' ∉ rlast ∧ '\n' ∉ rlast ∧
        startsLastAddr rlast = true) :
    i2c_capture_feed i2cPrompts initCapState
        ((((header :: rows) ++ [rlast]).map (fun l => l ++ ['\n'])).flatten) =
      (initCapState, [⟨CapReason.complete, (header :: rows) ++ [rlast]⟩]) ∧
    ((header :: rows) ++ [rlast]).length = 17 := by
  obtain ⟨hld, hlcr, hlnl, hlf0⟩ := hlast
  have hnlall : ∀ l ∈ (header :: rows) ++ [rlast], '\n' ∉ l := by
    intro l hl
    simp only [List.mem_append, List.mem_cons, List.mem_singleton] at hl
    rcases hl with (rfl | hm) | rfl | hfalse
    · exact hhnl
    · exact (hrows l hm).2.2.1
    · exact hlnl
    · simp at hfalse
  have hsplit := splitNL_terminated _ hnlall
  have hstep1 := lineStep_header [] header hh hhcr
  have hbatch := processLines_data_rows rows [header] header (by simp) (by simp)
      (by simp only [List.length_cons, List.length_nil]; omega)
      (fun r hrm => ⟨(hrows r hrm).1, (hrows r hrm).2.1, (hrows r hrm).2.2.2,
        data_row_ne_header r header (hrows r hrm).1 hh⟩)
  have hne_last : rlast ≠ ([header] ++ rows).headD [] :=
    data_row_ne_header rlast header hld hh
  have hstep3 := lineStep_last_row ([header] ++ rows) rlast hld hlcr hlf0 hne_last
  have hA : processLines i2cPrompts [rlast] (true, [header] ++ rows) =
      ((false, []), [⟨CapReason.complete, ([header] ++ rows) ++ [rlast]⟩]) := by
    rw [processLines_cons, hstep3, processLines_nil]
    simp
  have hB : processLines i2cPrompts (rows ++ [rlast]) (true, [header]) =
      ((false, []), [⟨CapReason.complete, ([header] ++ rows) ++ [rlast]⟩]) := by
    rw [processLines_append i2cPrompts rows [rlast] (true, [header]), hbatch]
    dsimp only
    rw [hA]
    simp
  have hL : (header :: rows) ++ [rlast] = header :: (rows ++ [rlast]) := by simp
  have hC : processLines i2cPrompts ((header :: rows) ++ [rlast]) (false, []) =
      ((false, []), [⟨CapReason.complete, ([header] ++ rows) ++ [rlast]⟩]) := by
    rw [hL, processLines_cons, hstep1]
    dsimp only
    rw [hB]
    simp
  have hchunk : (((header :: rows) ++ [rlast]).map
      (fun l => l ++ ['\n'])).flatten.isEmpty = false := by
    cases hflat : (((header :: rows) ++ [rlast]).map (fun l => l ++ ['\n'])).flatten with
    | nil =>
      exfalso
      have := congrArg Prod.fst (hflat ▸ hsplit)
      simp [splitNL] at this
    | cons c cs => rfl
  constructor
  · unfold i2c_capture_feed
    rw [if_neg (by simp [hchunk])]
    dsimp only [initCapState]
    rw [List.nil_append, hsplit]
    dsimp only
    rw [hC]
    simp [initCapState]
  · simp only [List.length_append, List.length_cons, List.length_nil]
    omega

/-- Concrete witness data for C1. -/
def c1Header : Str := ("     00 01 02 03 04 05 06 07 08 09 0a 0b 0c 0d 0e 0f").toList

def c1Rows : List Str :=
  [(("00: 00 11 22 33 44 55 66 77 88 99 aa bb cc dd ee ff").toList),
   (("10: 00 11 22 33 44 55 66 77 88 99 aa bb cc dd ee ff").toList),
   (("20: 00 11 22 33 44 55 66 77 88 99 aa bb cc dd ee ff").toList),
   (("30: 00 11 22 33 44 55 66 77 88 99 aa bb cc dd ee ff").toList),
   (("40: 00 11 22 33 44 55 66 77 88 99 aa bb cc dd ee ff").toList),
   (("50: 00 11 22 33 44 55 66 77 88 99 aa bb cc dd ee ff").toList),
   (("60: 00 11 22 33 44 55 66 77 88 99 aa bb cc dd ee ff").toList),
   (("70: 00 11 22 33 44 55 66 77 88 99 aa bb cc dd ee ff").toList),
   (("80: 00 11 22 33 44 55 66 77 88 99 aa bb cc dd ee ff").toList),
   (("90: 00 11 22 33 44 55 66 77 88 99 aa bb cc dd ee ff").toList),
   (("a0: 00 11 22 33 44 55 66 77 88 99 aa bb cc dd ee ff").toList),
   (("b0: 00 11 22 33 44 55 66 77 88 99 aa bb cc dd ee ff").toList),
   (("c0: 00 11 22 33 44 55 66 77 88 99 aa bb cc dd ee ff").toList),
   (("d0: 00 11 22 33 44 55 66 77 88 99 aa bb cc dd ee ff").toList),
   (("e0: 00 11 22 33 44 55 66 77 88 99 aa bb cc dd ee ff").toList)]

def c1Last : Str := ("f0: 00 11 22 33 44 55 66 77 88 99 aa bb cc dd ee ff").toList

theorem capture_complete_dump_witness :
    i2c_capture_feed i2cPrompts initCapState
        ((((c1Header :: c1Rows) ++ [c1Last]).map (fun l => l ++ ['\n'])).flatten) =
      (initCapState, [⟨CapReason.complete, (c1Header :: c1Rows) ++ [c1Last]⟩]) ∧
    ((c1Header :: c1Rows) ++ [c1Last]).length = 17 :=
  capture_complete_dump c1Header c1Last c1Rows (by decide) (by decide) (by decide)
    (by decide) (by decide) (by decide)

/-- C2: feeding, from Idle, a newline-terminated valid header line, three
valid data rows none of which carries the terminal row address, and then a
line starting with a configured prompt marker produces exactly one finalized
dump with reason prompt-interrupt containing exactly the header and the three
rows (the partial data is preserved), and returns the machine to Idle. -/
theorem capture_prompt_interrupt (header pl : Str) (rows : List Str)
    (hh : isHeaderLine header = true) (hhcr : '\r' ∉ header) (hhnl : '\n' ∉ header)
    (hlen : rows.length = 3)
    (hrows : ∀ r ∈ rows, isDataRowLine r = true ∧ '\r' ∉ r ∧ '\n' ∉ r ∧
        startsLastAddr r = false)
    (hpl : line_is_prompt_start i2cPrompts pl = true)
    (hplcr : '\r' ∉ pl) (hplnl : '\n' ∉ pl) :
    i2c_capture_feed i2cPrompts initCapState
        ((((header :: rows) ++ [pl]).map (fun l => l ++ ['\n'])).flatten) =
      (initCapState, [⟨CapReason.promptInterrupt, header :: rows⟩]) ∧
    (header :: rows).length = 4 := by
  have hnlall : ∀ l ∈ (header :: rows) ++ [pl], '\n' ∉ l := by
    intro l hl
    simp only [List.mem_append, List.mem_cons, List.mem_singleton] at hl
    rcases hl with (rfl | hm) | rfl | hfalse
    · exact hhnl
    · exact (hrows l hm).2.2.1
    · exact hplnl
    · simp at hfalse
  have hsplit := splitNL_terminated _ hnlall
  have hstep1 := lineStep_header [] header hh hhcr
  have hbatch := processLines_data_rows rows [header] header (by simp) (by simp)
      (by simp only [List.length_cons, List.length_nil]; omega)
      (fun r hrm => ⟨(hrows r hrm).1, (hrows r hrm).2.1, (hrows r hrm).2.2.2,
        data_row_ne_header r header (hrows r hrm).1 hh⟩)
  have hstep3 := lineStep_prompt_line ([header] ++ rows) pl hpl hplcr (by simp)
  have hA : processLines i2cPrompts [pl] (true, [header] ++ rows) =
      ((false, []), [⟨CapReason.promptInterrupt, [header] ++ rows⟩]) := by
    rw [processLines_cons, hstep3, processLines_nil]
    simp
  have hB : processLines i2cPrompts (rows ++ [pl]) (true, [header]) =
      ((false, []), [⟨CapReason.promptInterrupt, [header] ++ rows⟩]) := by
    rw [processLines_append i2cPrompts rows [pl] (true, [header]), hbatch]
    dsimp only
    rw [hA]
    simp
  have hL : (header :: rows) ++ [pl] = header :: (rows ++ [pl]) := by simp
  have hC : processLines i2cPrompts ((header :: rows) ++ [pl]) (false, []) =
      ((false, []), [⟨CapReason.promptInterrupt, [header] ++ rows⟩]) := by
    rw [hL, processLines_cons, hstep1]
    dsimp only
    rw [hB]
    simp
  have hchunk : (((header :: rows) ++ [pl]).map
      (fun l => l ++ ['\n'])).flatten.isEmpty = false := by
    cases hflat : (((header :: rows) ++ [pl]).map (fun l => l ++ ['\n'])).flatten with
    | nil =>
      exfalso
      have := congrArg Prod.fst (hflat ▸ hsplit)
      simp [splitNL] at this
    | cons c cs => rfl
  constructor
  · unfold i2c_capture_feed
    rw [if_neg (by simp [hchunk])]
    dsimp only [initCapState]
    rw [List.nil_append, hsplit]
    dsimp only
    rw [hC]
    simp [initCapState]
  · simp only [List.length_cons, List.length_nil]
    omega

/-- Concrete witness data for C2. -/
def c2Header : Str := ("     00 01 02 03 04 05 06 07 08 09 0a 0b 0c 0d 0e 0f").toList

def c2Rows : List Str :=
  [(("00: 00 11 22 33 44 55 66 77 88 99 aa bb cc dd ee ff").toList),
   (("10: 00 11 22 33 44 55 66 77 88 99 aa bb cc dd ee ff").toList),
   (("20: 00 11 22 33 44 55 66 77 88 99 aa bb cc dd ee ff").toList)]

def c2PromptLine : Str := ("i2c> ").toList

theorem capture_prompt_interrupt_witness :
    i2c_capture_feed i2cPrompts initCapState
        ((((c2Header :: c2Rows) ++ [c2PromptLine]).map (fun l => l ++ ['\n'])).flatten) =
      (initCapState, [⟨CapReason.promptInterrupt, c2Header :: c2Rows⟩]) ∧
    (c2Header :: c2Rows).length = 4 :=
  capture_prompt_interrupt c2Header c2PromptLine c2Rows (by decide) (by decide)
    (by decide) (by decide) (by decide) (by decide) (by decide) (by decide)

/-! ## Macro playback engine (source: `play_slot_recursive`, `play_slot`,
`send_line`, `send_enter_only`, `TOKEN_ENTER`, `ALL_SLOTS`) -/

/-- One observable transmission: a terminator-only send (`send_enter_only`)
or a line send (`send_line`). -/
inductive Tx where
  | enter
  | line (s : Str)
deriving DecidableEq

/-- A populated macro slot: `enter`, `combo` with a key sequence, or `raw`
with literal text. -/
inductive Slot where
  | enter
  | combo (seq : Str)
  | raw (data : Str)
deriving DecidableEq

/-- Source `DIGIT_SLOTS ++ LETTER_SLOTS`: the fixed key set of `slot_cmds`,
built as in the source from the digit range and the lowercase letter range. -/
def ALL_SLOTS : List Char :=
  (List.range 10).map (fun i => i.digitChar) ++
  (List.range 26).map (fun i => Char.ofNat ('a'.toNat + i))

/-- Source `TOKEN_ENTER`. -/
def tokenEnter : Str := ['<', 'E', 'N', 'T', 'E', 'R', '>']

/-- Python `data.split(TOKEN_ENTER)` accumulator loop: at each position,
either the break token starts here (split, skip its seven characters) or the
character joins the current piece. -/
def splitTokAux (acc : Str) : Str → List Str
  | '<' :: 'E' :: 'N' :: 'T' :: 'E' :: 'R' :: '>' :: rest =>
    acc.reverse :: splitTokAux [] rest
  | c :: rest => splitTokAux (c :: acc) rest
  | [] => [acc.reverse]

/-- Python `data.split(TOKEN_ENTER)`. -/
def pySplit (data : Str) : List Str := splitTokAux [] data

/-- The line-boundary characters recognized by Python `str.splitlines`. -/
def isLineBreakC (c : Char) : Bool :=
  c = '\n' || c = '\r' || c = '\x0b' || c = '\x0c' || c = '\x1c' || c = '\x1d' ||
  c = '\x1e' || c = '\x85' || c = '\u2028' || c = '\u2029'

/-- Python `str.splitlines` accumulator loop (CR LF counts as one boundary,
a trailing boundary produces no empty final line). -/
def pySplitlinesAux (acc : Str) : Str → List Str
  | [] => if acc.isEmpty then [] else [acc.reverse]
  | '\r' :: '\n' :: rest => acc.reverse :: pySplitlinesAux [] rest
  | c :: rest =>
    if isLineBreakC c then acc.reverse :: pySplitlinesAux [] rest
    else pySplitlinesAux (c :: acc) rest

/-- Python `segment.splitlines()`. -/
def pySplitlines (s : Str) : List Str := pySplitlinesAux [] s

/-- The transmissions emitted for one line of a raw segment: a terminator
only when `line.strip()` is empty but the line is not, a line send for any
other non-empty line, nothing for an empty line. -/
def lineTx (ln : Str) : List Tx :=
  if ln.all pyIsSpace && !ln.isEmpty then [Tx.enter]
  else if !ln.isEmpty then [Tx.line ln]
  else []

/-- The transmissions emitted for one segment of a raw slot: one terminator
when the segment is empty (`not lines and segment == empty`), then the lines. -/
def rawSegEmit (seg : Str) : List Tx :=
  (if (pySplitlines seg).isEmpty && seg.isEmpty then [Tx.enter] else []) ++
  ((pySplitlines seg).map lineTx).flatten

/-- The segment loop of the raw branch: a terminator-only transmission after
every segment except the last (`if pi < len(parts) - 1`). -/
def rawPartsEmit : List Str → List Tx
  | [] => []
  | [seg] => rawSegEmit seg
  | seg :: rest => rawSegEmit seg ++ Tx.enter :: rawPartsEmit rest

/-- The transmissions of the raw branch of `play_slot_recursive`. -/
def playRawEmit (data : Str) : List Tx := rawPartsEmit (pySplit data)

/-- The combo loop: each key of the sequence that is a registry key is played
in order; emitted transmissions are concatenated. -/
def playSeqWith (f : Char → Option (List Tx)) : Str → Option (List Tx)
  | [] => some []
  | c :: cs =>
    match (if c ∈ ALL_SLOTS then f c else some []) with
    | none => none
    | some t =>
      match playSeqWith f cs with
      | none => none
      | some ts => some (t ++ ts)

/-- Source `play_slot_recursive` with explicit fuel (`none` = fuel exhausted,
which the adequacy theorem rules out).  The registry `reg` maps a key to its
slot (`none` = empty); missing keys, empty slots, the depth cap (40) and a
key already on the visited path abort the branch with no transmissions.  The
visited set of the source holds `id(v)`; since each registry key owns one
distinct slot object, the visited path is modelled by slot keys. -/
def playSlotF : Nat → (Char → Option Slot) → Char → Nat → List Char →
    Option (List Tx)
  | 0, _, _, _, _ => none
  | fuel + 1, reg, k, depth, visited =>
    if depth > 40 then some []
    else if k ∉ ALL_SLOTS then some []
    else
      match reg k with
      | none => some []
      | some v =>
        if k ∈ visited then some []
        else
          match v with
          | Slot.enter => some [Tx.enter]
          | Slot.combo seq =>
            playSeqWith (fun c => playSlotF fuel reg c (depth + 1) (k :: visited)) seq
          | Slot.raw data => some (playRawEmit data)

/-- Source `play_slot`: recursion starts at depth 0 with an empty visited
set; fuel 42 covers the depth cap (depths 0 through 41). -/
def play_slot (reg : Char → Option Slot) (k : Char) : Option (List Tx) :=
  playSlotF 42 reg k 0 []

lemma playSeqWith_isSome (f : Char → Option (List Tx)) (seq : Str)
    (hf : ∀ c, c ∈ ALL_SLOTS → (f c).isSome) : (playSeqWith f seq).isSome := by
  induction seq with
  | nil => rfl
  | cons c cs ih =>
    rcases hx : (if c ∈ ALL_SLOTS then f c else some []) with _ | t
    · exfalso
      by_cases hc : c ∈ ALL_SLOTS
      · have hs := hf c hc
        rw [if_pos hc] at hx
        rw [hx] at hs
        simp at hs
      · rw [if_neg hc] at hx
        simp at hx
    · rcases hy : playSeqWith f cs with _ | ts
      · rw [hy] at ih
        simp at ih
      · simp only [playSeqWith, hx, hy]
        rfl

lemma playSlotF_isSome (fuel : Nat) : ∀ (reg : Char → Option Slot) (k : Char)
    (depth : Nat) (visited : List Char), 1 ≤ fuel → 42 ≤ fuel + depth →
    (playSlotF fuel reg k depth visited).isSome := by
  induction fuel with
  | zero => intro _ _ _ _ h1 _; omega
  | succ f ih =>
    intro reg k depth visited _ h2
    unfold playSlotF
    by_cases hd : depth > 40
    · simp [hd]
    · rw [if_neg hd]
      by_cases hk : k ∈ ALL_SLOTS
      · rw [if_neg (not_not_intro hk)]
        cases hr : reg k with
        | none => simp
        | some v =>
          dsimp only
          by_cases hv : k ∈ visited
          · simp [hv]
          · rw [if_neg hv]
            cases v with
            | enter => simp
            | raw data => simp
            | combo seq =>
              apply playSeqWith_isSome
              intro c hc
              exact ih reg c (depth + 1) (k :: visited) (by omega) (by omega)
      · rw [if_pos hk]
        simp

/-- A combo slot that references itself directly. -/
def selfComboReg : Char → Option Slot :=
  fun c => if c = 'a' then some (Slot.combo ['a']) else none

/-- Two combo slots that reference each other. -/
def pairComboReg : Char → Option Slot :=
  fun c =>
    if c = 'a' then some (Slot.combo ['b'])
    else if c = 'b' then some (Slot.combo ['a']) else none

/-- C7: playback terminates for every registry and slot key (the fuel 42
derived from the depth cap always suffices, so the recursion cannot loop
forever); a call whose key is already on the visited path — the detected
cycle — emits no transmissions; and in particular playing a directly
self-referencing combo or a mutually referencing combo pair emits no
transmissions at all. -/
theorem play_cycle_safe :
    (∀ (reg : Char → Option Slot) (k : Char), (play_slot reg k).isSome) ∧
    (∀ (fuel : Nat) (reg : Char → Option Slot) (k : Char) (depth : Nat)
        (visited : List Char), k ∈ visited →
        playSlotF (fuel + 1) reg k depth visited = some []) ∧
    play_slot selfComboReg 'a' = some [] ∧
    play_slot pairComboReg 'a' = some [] := by
  refine ⟨?_, ?_, by decide, by decide⟩
  · intro reg k
    exact playSlotF_isSome 42 reg k 0 [] (by omega) (by omega)
  · intro fuel reg k depth visited hv
    unfold playSlotF
    by_cases hd : depth > 40
    · simp [hd]
    · rw [if_neg hd]
      by_cases hk : k ∈ ALL_SLOTS
      · rw [if_neg (not_not_intro hk)]
        cases reg k with
        | none => rfl
        | some v =>
          dsimp only
          rw [if_pos hv]
      · rw [if_pos hk]

theorem play_cycle_safe_witness :
    (play_slot selfComboReg 'b').isSome ∧
    playSlotF 1 selfComboReg 'a' 0 ['a'] = some [] :=
  ⟨play_cycle_safe.1 selfComboReg 'b',
   play_cycle_safe.2.1 0 selfComboReg 'a' 0 ['a'] (by decide)⟩

/-- Modelled from the wording of claim C3 only (not from the source): one
line transmission per non-empty line, one terminator-only transmission per
blank line, and one terminator-only transmission per segment boundary. -/
def joinWithEnter : List (List Tx) → List Tx
  | [] => []
  | [x] => x
  | x :: rest => x ++ Tx.enter :: joinWithEnter rest

lemma joinWithEnter_cons_cons (x y : List Tx) (r : List (List Tx)) :
    joinWithEnter (x :: y :: r) = x ++ Tx.enter :: joinWithEnter (y :: r) := rfl

def claimRawEmit (data : Str) : List Tx :=
  joinWithEnter
    ((pySplit data).map (fun seg =>
      ((pySplitlines seg).map
        (fun ln => if ln.isEmpty then [Tx.enter] else [Tx.line ln])).flatten))

/-- A registry holding one raw slot whose text ends in the break token. -/
def c3Reg : Char → Option Slot :=
  fun c => if c = 'a' then some (Slot.raw (("a<ENTER>").toList)) else none

/-- C3 counterexample: for raw text consisting of one line followed by the
break token, the code emits three transmissions (the line, the boundary
terminator, and a terminator for the trailing empty segment), while the
claimed description emits only two — so the claim as stated is false. -/
theorem play_raw_claim_counterexample :
    play_slot c3Reg 'a' = some [Tx.line ['a'], Tx.enter, Tx.enter] ∧
    claimRawEmit (("a<ENTER>").toList) = [Tx.line ['a'], Tx.enter] ∧
    play_slot c3Reg 'a' ≠ some (claimRawEmit (("a<ENTER>").toList)) :=
  ⟨by decide, by decide, by decide⟩

/-- The per-line behavior stated by the amended claim: an empty line emits
nothing, a whitespace-only non-empty line emits a terminator-only
transmission, and a line with content emits one line transmission. -/
def lineTxSpec (ln : Str) : List Tx :=
  if ln.isEmpty then []
  else if ln.all pyIsSpace then [Tx.enter]
  else [Tx.line ln]

/-- The amended C3 emission, built from the amended wording: per segment,
the lines as described by `lineTxSpec`, an empty segment emitting one
terminator-only transmission, and one terminator-only transmission between
consecutive segments. -/
def amendedRawEmit (data : Str) : List Tx :=
  joinWithEnter
    ((pySplit data).map (fun seg =>
      if seg.isEmpty then [Tx.enter]
      else ((pySplitlines seg).map lineTxSpec).flatten))

lemma lineTx_eq_spec (ln : Str) : lineTx ln = lineTxSpec ln := by
  unfold lineTx lineTxSpec
  by_cases h1 : ln.isEmpty <;> by_cases h2 : ln.all pyIsSpace <;>
    simp [h1, h2]

lemma rawSegEmit_eq_spec (seg : Str) :
    rawSegEmit seg =
      (if seg.isEmpty then [Tx.enter]
       else ((pySplitlines seg).map lineTxSpec).flatten) := by
  unfold rawSegEmit
  by_cases hs : seg.isEmpty
  · have hseg : seg = [] := by simpa [List.isEmpty_iff] using hs
    subst hseg
    rfl
  · have hs' : seg.isEmpty = false := by simpa using hs
    simp only [hs', Bool.and_false, if_neg Bool.false_ne_true, List.nil_append,
      if_false, show lineTx = lineTxSpec from funext lineTx_eq_spec]

lemma rawPartsEmit_eq_join (parts : List Str) :
    rawPartsEmit parts =
      joinWithEnter
        (parts.map (fun seg =>
          if seg.isEmpty then [Tx.enter]
          else ((pySplitlines seg).map lineTxSpec).flatten)) := by
  induction parts with
  | nil => rfl
  | cons seg rest ih =>
    cases rest with
    | nil =>
      simp [rawPartsEmit, joinWithEnter, rawSegEmit_eq_spec]
    | cons s2 r2 =>
      have hstep : rawPartsEmit (seg :: s2 :: r2) =
          rawSegEmit seg ++ Tx.enter :: rawPartsEmit (s2 :: r2) := rfl
      rw [hstep, ih, rawSegEmit_eq_spec]
      simp only [List.map_cons, joinWithEnter_cons_cons]

/-- C3 amended: playing a raw slot emits, per break-token segment, one line
transmission per line with non-whitespace content, one terminator-only
transmission per whitespace-only non-empty line, nothing for an empty line,
one terminator-only transmission for an empty segment, and one
terminator-only transmission per segment boundary. -/
theorem play_raw_amended (reg : Char → Option Slot) (k : Char) (data : Str)
    (hreg : reg k = some (Slot.raw data)) (hk : k ∈ ALL_SLOTS) :
    play_slot reg k = some (amendedRawEmit data) := by
  have h1 : play_slot reg k = some (playRawEmit data) := by
    unfold play_slot playSlotF
    rw [if_neg (by omega), if_neg (not_not_intro hk), hreg]
    rfl
  rw [h1]
  unfold playRawEmit amendedRawEmit
  rw [rawPartsEmit_eq_join]

theorem play_raw_amended_witness :
    play_slot c3Reg 'a' = some (amendedRawEmit (("a<ENTER>").toList)) :=
  play_raw_amended c3Reg 'a' (("a<ENTER>").toList) rfl (by decide)

/-! ## Dump compare engine (source: `_parse_dump_to_matrix`, `_hex_to_bin`,
`_dump_compare_single`, `_store_cmp_result`, `multi_dump_compare`,
`save_cmp_history`, `save_cmp_results`, `HEADER_LINE`, `ROW_ADDRS`) -/

/-- Source `ROW_ADDRS`: the sixteen fixed row addresses 00, 10, ..., f0
(the lowercase two-digit hex rendering of 0, 16, ..., 240). -/
def ROW_ADDRS : List Str :=
  (List.range 16).map (fun i => [i.digitChar, '0'])

/-- Source `HEADER_LINE` (five spaces then the sixteen column labels). -/
def HEADER_LINE : Str :=
  ("     00 01 02 03 04 05 06 07 08 09 0a 0b 0c 0d 0e 0f").toList

/-- The placeholder byte used to pad short rows. -/
def PLACEHOLDER : Str := ['-', '-']

/-- The mask token for unchanged cells. -/
def XX : Str := ['X', 'X']

/-- Python `str.strip()`. -/
def pyStrip (l : Str) : Str :=
  ((l.dropWhile pyIsSpace).reverse.dropWhile pyIsSpace).reverse

/-- Python `str.split()` accumulator loop: maximal non-whitespace words. -/
def splitWsAux (cur : Str) : Str → List Str
  | [] => if cur.isEmpty then [] else [cur.reverse]
  | c :: rest =>
    if pyIsSpace c then
      (if cur.isEmpty then [] else [cur.reverse]) ++ splitWsAux [] rest
    else splitWsAux (c :: cur) rest

/-- Regex fullmatch [0-9A-Fa-f]\x7b2\x7d on a word. -/
def isHex2Tok (w : Str) : Bool :=
  match w with
  | [x, y] => isHexC x && isHexC y
  | _ => false

/-- The per-line pattern of `_parse_dump_to_matrix`:
`^([0-9A-Fa-f]\x7b2\x7d):\s+(.*)$`, returning the lowercased address and the
text after the whitespace run. -/
def rowParse (l : Str) : Option (Str × Str) :=
  match l with
  | a :: b :: ':' :: rest =>
    if isHexC a && isHexC b then
      match wsRun rest with
      | none => none
      | some r => some ([a.toLower, b.toLower], r)
    else none
  | _ => none

/-- The cell list of one parsed row: hex-token words, padded with the
placeholder to sixteen or truncated to sixteen, uppercased. -/
def rowCells (rest : Str) : List Str :=
  let bs := (splitWsAux [] (pyStrip rest)).filter isHex2Tok
  let padded :=
    if bs.length < 16 then bs ++ List.replicate (16 - bs.length) PLACEHOLDER
    else if bs.length > 16 then bs.take 16 else bs
  padded.map (fun w => w.map Char.toUpper)

/-- Python dict assignment `matrix[addr] = v`: replace in place or append. -/
def dictInsert (m : List (Str × List Str)) (k : Str) (v : List Str) :
    List (Str × List Str) :=
  if (m.lookup k).isSome then
    m.map (fun kv => if kv.1 = k then (k, v) else kv)
  else m ++ [(k, v)]

/-- One line of the `_parse_dump_to_matrix` loop: skip the no-header
sentinel, skip non-matching lines, store the cells of a matching row. -/
def matrixBuildStep (m : List (Str × List Str)) (ln : Str) :
    List (Str × List Str) :=
  if noHeaderMark.isPrefixOf ln then m
  else
    match rowParse ln with
    | none => m
    | some ar => dictInsert m ar.1 (rowCells ar.2)

/-- The synthesis loop of `_parse_dump_to_matrix`: add an all-placeholder row
for a fixed address that is absent. -/
def matrixEnsureStep (m : List (Str × List Str)) (a : Str) :
    List (Str × List Str) :=
  if (m.lookup a).isSome then m
  else m ++ [(a, List.replicate 16 PLACEHOLDER)]

/-- Source `_parse_dump_to_matrix`: collect the parsed rows (skipping the
no-header sentinel), then synthesize an all-placeholder row for every fixed
row address that is absent. -/
def parse_dump_to_matrix (lines : List Str) : List (Str × List Str) :=
  ROW_ADDRS.foldl matrixEnsureStep (lines.foldl matrixBuildStep [])

/-- Row lookup `matrix[addr]`; every fixed address is present after parsing,
so the default is never reached. -/
def lookupRow (m : List (Str × List Str)) (a : Str) : List Str :=
  (m.lookup a).getD (List.replicate 16 PLACEHOLDER)

/-- Bit `i` of `n` as the character 0 or 1. -/
def bitC (n i : Nat) : Char := if n / 2 ^ i % 2 = 1 then '1' else '0'

/-- Python f-string 08b rendering of a byte, split into two 4-bit groups. -/
def bits8 (n : Nat) : Str :=
  [bitC n 7, bitC n 6, bitC n 5, bitC n 4, '_', bitC n 3, bitC n 2, bitC n 1, bitC n 0]

/-- The value of one hex digit, as accepted by Python `int(h, 16)`: the
decimal digits, then the letter ranges (codes 65-70 and 97-102) offset to
10-15. -/
def hexDigitVal (c : Char) : Option Nat :=
  if c.isDigit then some (c.toNat - 48)
  else if isHexC c then
    some (if c ≤ 'F' then c.toNat - 55 else c.toNat - 87)
  else none

/-- Source `_hex_to_bin`: two 4-bit groups joined by an underscore, or the
all-dash placeholder when the cell is not a hex byte. -/
def hexToBin (h : Str) : Str :=
  match h with
  | [a, b] =>
    match hexDigitVal a, hexDigitVal b with
    | some x, some y => bits8 (16 * x + y)
    | _, _ => ['-', '-', '-', '-', '_', '-', '-', '-', '-']
  | _ => ['-', '-', '-', '-', '_', '-', '-', '-', '-']

/-- One rendered row of a diff view: equal cells masked, differing cells
rendered from the respective side by `pick`; the per-cell comparison is
`rowA[i] == rowB[i]` in all four rendering passes. -/
def maskedTokens (rA rB : List Str) (pick : Str → Str → Str) : List Str :=
  (List.range 16).map (fun i =>
    if rA.getD i PLACEHOLDER = rB.getD i PLACEHOLDER then XX
    else pick (rA.getD i PLACEHOLDER) (rB.getD i PLACEHOLDER))

/-- The number of differing columns of one row pair. -/
def rowDiff (rA rB : List Str) : Nat :=
  ((List.range 16).filter (fun i =>
    rA.getD i PLACEHOLDER ≠ rB.getD i PLACEHOLDER)).length

/-- Python `' '.join(tokens)`. -/
def joinSpace : List Str → Str
  | [] => []
  | [w] => w
  | w :: rest => w ++ ' ' :: joinSpace rest

/-- One rendered data line `f-string addr:  tokens`. -/
def renderRow (addr : Str) (toks : List Str) : Str :=
  addr ++ ':' :: ' ' :: ' ' :: joinSpace toks

/-- The output of one comparison (timestamp omitted: it comes from the
environment clock and carries no information for these properties). -/
structure CmpOut where
  changed_rows : Nat
  changed_bytes : Nat
  hex_lines : List Str
  binary_lines : List Str
deriving DecidableEq

/-- Source `_dump_compare_single` on two dump line lists: the masked hex view
(side A then side B), the masked binary view, and the running totals; the
imperative per-row accumulation of the totals is expressed as a filter count
and a sum over the fixed row addresses. -/
def dump_compare_single (a b : Char) (da db : List Str) : CmpOut :=
  let mA := parse_dump_to_matrix da
  let mB := parse_dump_to_matrix db
  { changed_rows := (ROW_ADDRS.filter (fun addr =>
      rowDiff (lookupRow mA addr) (lookupRow mB addr) ≠ 0)).length,
    changed_bytes := (ROW_ADDRS.map (fun addr =>
      rowDiff (lookupRow mA addr) (lookupRow mB addr))).sum,
    hex_lines :=
      [("hex").toList, (" disk:").toList ++ [a], HEADER_LINE] ++
      ROW_ADDRS.map (fun addr => renderRow addr
        (maskedTokens (lookupRow mA addr) (lookupRow mB addr) (fun x _ => x))) ++
      [("disk:").toList ++ [b], HEADER_LINE] ++
      ROW_ADDRS.map (fun addr => renderRow addr
        (maskedTokens (lookupRow mA addr) (lookupRow mB addr) (fun _ y => y))),
    binary_lines :=
      [[], ("binary").toList, ("disk:").toList ++ [a], HEADER_LINE] ++
      ROW_ADDRS.map (fun addr => renderRow addr
        (maskedTokens (lookupRow mA addr) (lookupRow mB addr)
          (fun x _ => hexToBin x))) ++
      [("disk:").toList ++ [b], HEADER_LINE] ++
      ROW_ADDRS.map (fun addr => renderRow addr
        (maskedTokens (lookupRow mA addr) (lookupRow mB addr)
          (fun _ y => hexToBin y))) }

/-- One stored pair result (source `entry` of `_dump_compare_single`;
timestamp omitted as environment-supplied). -/
structure CompareRecord where
  a : Char
  b : Char
  changed_rows : Nat
  changed_bytes : Nat
  hex_lines : List Str
  binary_lines : List Str
deriving DecidableEq

/-- One lightweight per-pair summary inside a history entry. -/
structure PairStat where
  a : Char
  b : Char
  changed_rows : Nat
  changed_bytes : Nat
deriving DecidableEq

/-- One batch history entry (source `entry` of `multi_dump_compare`;
timestamp omitted as environment-supplied). -/
structure CompareHistoryEntry where
  pairs : List PairStat
deriving DecidableEq

/-- Source `MAX_CMP_RESULTS_ENTRIES`. -/
def MAX_CMP_RESULTS_ENTRIES : Nat := 400

/-- Source `MAX_CMP_HISTORY_ENTRIES`. -/
def MAX_CMP_HISTORY_ENTRIES : Nat := 200

/-- Python slice `l[-n:]` for positive `n`. -/
def lastN (n : Nat) (l : List α) : List α := l.drop (l.length - n)

/-- The in-memory and persisted compare stores: `_dumpcmp_results` with its
file, and `cmp_history` with its file. -/
structure PersistState where
  results : List CompareRecord
  resultsFile : List CompareRecord
  history : List CompareHistoryEntry
  historyFile : List CompareHistoryEntry
deriving DecidableEq

def initPersist : PersistState := ⟨[], [], [], []⟩

/-- Source `_store_cmp_result`: append, trim the in-memory list beyond the
cap (`del [:-MAX]`), then `save_cmp_results` writes the `[-MAX:]` slice
(skipped when the list is empty, which cannot happen after an append). -/
def store_cmp_result (st : PersistState) (e : CompareRecord) : PersistState :=
  let r1 := st.results ++ [e]
  let r2 :=
    if r1.length > MAX_CMP_RESULTS_ENTRIES then lastN MAX_CMP_RESULTS_ENTRIES r1
    else r1
  { st with
    results := r2,
    resultsFile := if r2.isEmpty then st.resultsFile
      else lastN MAX_CMP_RESULTS_ENTRIES r2 }

/-- Source `save_cmp_history`: write the `[-MAX:]` slice of the in-memory
history (which itself is never trimmed). -/
def save_cmp_history (st : PersistState) : PersistState :=
  { st with historyFile := lastN MAX_CMP_HISTORY_ENTRIES st.history }

/-- The end-of-batch history path: `cmp_history.append(entry)` then
`save_cmp_history`. -/
def histAppendSave (st : PersistState) (e : CompareHistoryEntry) : PersistState :=
  save_cmp_history { st with history := st.history ++ [e] }

/-- Source slot truthiness test `if not da:`: a missing slot and an empty
line list are both treated as empty. -/
def slotFull (slots : Char → Option (List Str)) (k : Char) : Option (List Str) :=
  match slots k with
  | some d => if d.isEmpty then none else some d
  | none => none

/-- Source `_dump_compare_single` at slot level: compare, store the record
immediately, and return the lightweight stats; an empty slot stores nothing
and returns no stats. -/
def dump_compare_single_slots (slots : Char → Option (List Str)) (a b : Char)
    (st : PersistState) : PersistState × Option PairStat :=
  match slotFull slots a, slotFull slots b with
  | some da, some db =>
    let out := dump_compare_single a b da db
    (store_cmp_result st
        ⟨a, b, out.changed_rows, out.changed_bytes, out.hex_lines, out.binary_lines⟩,
     some ⟨a, b, out.changed_rows, out.changed_bytes⟩)
  | _, _ => (st, none)

/-- One iteration of the `multi_dump_compare` pair loop: successful stats are
appended to `session_stats`. -/
def multi_step (slots : Char → Option (List Str)) (st : PersistState)
    (session : List PairStat) (p : Char × Char) : PersistState × List PairStat :=
  match dump_compare_single_slots slots p.1 p.2 st with
  | (st2, some s) => (st2, session ++ [s])
  | (st2, none) => (st2, session)

/-- The pair loop of `multi_dump_compare`, also returning the persisted-state
snapshot visible after each pair comparison. -/
def multi_steps (slots : Char → Option (List Str)) (st : PersistState)
    (session : List PairStat) :
    List (Char × Char) → (PersistState × List PairStat) × List PersistState
  | [] => ((st, session), [])
  | p :: ps =>
    let r1 := multi_step slots st session p
    let rest := multi_steps slots r1.1 r1.2 ps
    (rest.1, r1.1 :: rest.2)

/-- Source `multi_dump_compare`: nothing for an empty pair list; otherwise
run the pair loop, then append one history entry for the whole batch and save
the history. -/
def multi_dump_compare (slots : Char → Option (List Str))
    (pairs : List (Char × Char)) (st : PersistState) : PersistState :=
  if pairs.isEmpty then st
  else
    let r := multi_steps slots st [] pairs
    histAppendSave r.1.1 ⟨r.1.2⟩

/-- C6 counterexample: a dump containing one row at address 01 — outside the
sixteen fixed row addresses — yields a matrix with seventeen addresses, so
the matrix does not hold exactly the sixteen fixed row addresses. -/
theorem parse_matrix_claim_counterexample :
    (parse_dump_to_matrix [(("01: 0a").toList)]).length = 17 ∧
    (parse_dump_to_matrix [(("01: 0a").toList)]).map Prod.fst ≠ ROW_ADDRS :=
  ⟨by decide, by decide⟩

lemma lookup_append_left {m n : List (Str × List Str)} {k : Str}
    (h : (m.lookup k).isSome) : (m ++ n).lookup k = m.lookup k := by
  induction m with
  | nil => simp at h
  | cons p m ih =>
    by_cases he : k = p.1
    · simp [List.lookup, he]
    · have hb : (k == p.1) = false := by simpa using he
      simp only [List.lookup, hb] at h ⊢
      simpa using ih h

lemma lookup_append_right {m : List (Str × List Str)} {k : Str} {v : List Str}
    (h : m.lookup k = none) : (m ++ [(k, v)]).lookup k = some v := by
  induction m with
  | nil => simp [List.lookup]
  | cons p m ih =>
    by_cases he : k = p.1
    · simp [List.lookup, he] at h
    · have hb : (k == p.1) = false := by simpa using he
      simp only [List.lookup, hb] at h ⊢
      exact ih h

lemma matrixEnsure_lookup (addrs : List Str) (m : List (Str × List Str))
    (a : Str) (h : a ∈ addrs ∨ (m.lookup a).isSome) :
    ((addrs.foldl matrixEnsureStep m).lookup a).isSome := by
  induction addrs generalizing m with
  | nil =>
    rcases h with h | h
    · simp at h
    · simpa using h
  | cons x xs ih =>
    rw [List.foldl_cons]
    apply ih
    rcases h with h | h
    · rcases List.mem_cons.mp h with rfl | hm
      · right
        unfold matrixEnsureStep
        split_ifs with hl
        · exact hl
        · cases ho : m.lookup a with
          | some v => exact absurd (by simp [ho]) hl
          | none =>
            rw [lookup_append_right ho]
            rfl
      · left
        exact hm
    · right
      unfold matrixEnsureStep
      split_ifs with hl
      · exact h
      · rw [lookup_append_left h]
        exact h

lemma rowCells_length (rest : Str) : (rowCells rest).length = 16 := by
  unfold rowCells
  dsimp only
  split_ifs with h1 h2 <;> simp [List.length_take] <;> omega

lemma dictInsert_forall (P : List Str → Prop) {m : List (Str × List Str)}
    {k : Str} {v : List Str} (hm : ∀ kv ∈ m, P kv.2) (hv : P v) :
    ∀ kv ∈ dictInsert m k v, P kv.2 := by
  intro kv hkv
  unfold dictInsert at hkv
  split_ifs at hkv
  · rcases List.mem_map.mp hkv with ⟨kv0, hkv0, heq⟩
    by_cases he : kv0.1 = k
    · rw [if_pos he] at heq
      rw [← heq]
      exact hv
    · rw [if_neg he] at heq
      rw [← heq]
      exact hm kv0 hkv0
  · rcases List.mem_append.mp hkv with h | h
    · exact hm kv h
    · simp only [List.mem_singleton] at h
      rw [h]
      exact hv

lemma matrix_rows_16 (lines : List Str) :
    ∀ kv ∈ parse_dump_to_matrix lines, kv.2.length = 16 := by
  unfold parse_dump_to_matrix
  have hbuild : ∀ (ls : List Str) (m : List (Str × List Str)),
      (∀ kv ∈ m, kv.2.length = 16) →
      ∀ kv ∈ ls.foldl matrixBuildStep m, kv.2.length = 16 := by
    intro ls
    induction ls with
    | nil => intro m hm; simpa using hm
    | cons l ls ih =>
      intro m hm
      rw [List.foldl_cons]
      apply ih
      unfold matrixBuildStep
      split_ifs with hs
      · exact hm
      · cases hrp : rowParse l with
        | none => simpa [hrp] using hm
        | some ar =>
          simp only [hrp]
          exact dictInsert_forall (fun v => v.length = 16) hm (rowCells_length ar.2)
  have hensure : ∀ (addrs : List Str) (m : List (Str × List Str)),
      (∀ kv ∈ m, kv.2.length = 16) →
      ∀ kv ∈ addrs.foldl matrixEnsureStep m, kv.2.length = 16 := by
    intro addrs
    induction addrs with
    | nil => intro m hm; simpa using hm
    | cons x xs ih =>
      intro m hm
      rw [List.foldl_cons]
      apply ih
      unfold matrixEnsureStep
      split_ifs with hl
      · exact hm
      · intro kv hkv
        rcases List.mem_append.mp hkv with h | h
        · exact hm kv h
        · simp only [List.mem_singleton] at h
          rw [h]
          simp
  exact hensure ROW_ADDRS _ (hbuild lines [] (by simp))

lemma rowDiff_self (r : List Str) : rowDiff r r = 0 := by
  simp [rowDiff]

lemma maskedTokens_self (r : List Str) (pick : Str → Str → Str) :
    maskedTokens r r pick = List.replicate 16 XX := by
  unfold maskedTokens
  simp

/-- C6 corrected: the parsed matrix always holds at least the sixteen fixed
row addresses (a malformed row at another address is retained as an extra
entry), every matrix row holds exactly sixteen cells, and comparing any dump
against itself yields zero changed rows, zero changed bytes, and fully
masked token rows in every hex and binary rendering pass. -/
theorem parse_matrix_amended (d : List Str) (a b : Char) :
    (∀ addr ∈ ROW_ADDRS, ((parse_dump_to_matrix d).lookup addr).isSome) ∧
    (∀ kv ∈ parse_dump_to_matrix d, kv.2.length = 16) ∧
    (dump_compare_single a b d d).changed_rows = 0 ∧
    (dump_compare_single a b d d).changed_bytes = 0 ∧
    (∀ addr ∈ ROW_ADDRS, ∀ pick : Str → Str → Str,
      maskedTokens (lookupRow (parse_dump_to_matrix d) addr)
        (lookupRow (parse_dump_to_matrix d) addr) pick =
        List.replicate 16 XX) := by
  refine ⟨?_, matrix_rows_16 d, ?_, ?_, ?_⟩
  · intro addr ha
    unfold parse_dump_to_matrix
    exact matrixEnsure_lookup ROW_ADDRS _ addr (Or.inl ha)
  · simp [dump_compare_single, rowDiff_self]
  · simp [dump_compare_single, rowDiff_self]
  · intro addr _ pick
    exact maskedTokens_self _ pick

theorem parse_matrix_amended_witness :
    ((parse_dump_to_matrix [(("01: 0a").toList)]).lookup (['0', '0'])).isSome ∧
    (dump_compare_single '0' '1' [(("01: 0a").toList)]
        [(("01: 0a").toList)]).changed_bytes = 0 :=
  ⟨(parse_matrix_amended [(("01: 0a").toList)] '0' '1').1 ['0', '0'] (by decide),
   (parse_matrix_amended [(("01: 0a").toList)] '0' '1').2.2.2.1⟩

lemma lastN_of_le {α : Type} (n : Nat) (l : List α) (h : l.length ≤ n) :
    lastN n l = l := by
  unfold lastN
  rw [Nat.sub_eq_zero_of_le h, List.drop_zero]

lemma lastN_length_le {α : Type} (n : Nat) (l : List α) :
    (lastN n l).length ≤ n := by
  unfold lastN
  rw [List.length_drop]
  omega

lemma lastN_ne_nil {α : Type} (n : Nat) (l : List α) (hn : 1 ≤ n)
    (hl : l ≠ []) : lastN n l ≠ [] := by
  unfold lastN
  intro h
  have h2 := congrArg List.length h
  rw [List.length_drop] at h2
  simp only [List.length_nil] at h2
  have h3 := List.length_pos.mpr hl
  omega

lemma lastN_append {α : Type} (n : Nat) (l m : List α) :
    lastN n (lastN n l ++ m) = lastN n (l ++ m) := by
  have h1 : lastN n l ++ m = (l ++ m).drop (l.length - n) := by
    unfold lastN
    rw [List.drop_append_of_le_length (by omega)]
  rw [h1]
  unfold lastN
  rw [List.drop_drop, List.length_drop]
  congr 1
  simp only [List.length_append]
  omega

lemma store_cmp_result_fields (st : PersistState) (e : CompareRecord) :
    (store_cmp_result st e).results =
      lastN MAX_CMP_RESULTS_ENTRIES (st.results ++ [e]) ∧
    (store_cmp_result st e).resultsFile =
      lastN MAX_CMP_RESULTS_ENTRIES (st.results ++ [e]) ∧
    (store_cmp_result st e).history = st.history ∧
    (store_cmp_result st e).historyFile = st.historyFile := by
  have hr2 : (if (st.results ++ [e]).length > MAX_CMP_RESULTS_ENTRIES
      then lastN MAX_CMP_RESULTS_ENTRIES (st.results ++ [e])
      else st.results ++ [e]) =
      lastN MAX_CMP_RESULTS_ENTRIES (st.results ++ [e]) := by
    split_ifs with h
    · rfl
    · rw [lastN_of_le _ _ (by omega)]
  have hne : lastN MAX_CMP_RESULTS_ENTRIES (st.results ++ [e]) ≠ [] :=
    lastN_ne_nil _ _ (by norm_num [MAX_CMP_RESULTS_ENTRIES]) (by simp)
  unfold store_cmp_result
  dsimp only
  rw [hr2]
  refine ⟨rfl, ?_, rfl, rfl⟩
  rw [if_neg (by simpa using hne)]
  have hid := lastN_append MAX_CMP_RESULTS_ENTRIES (st.results ++ [e])
    ([] : List CompareRecord)
  simpa using hid

lemma store_fold_fields (es : List CompareRecord) (st : PersistState)
    (h : es ≠ []) :
    (es.foldl store_cmp_result st).results =
      lastN MAX_CMP_RESULTS_ENTRIES (st.results ++ es) ∧
    (es.foldl store_cmp_result st).resultsFile =
      lastN MAX_CMP_RESULTS_ENTRIES (st.results ++ es) ∧
    (es.foldl store_cmp_result st).history = st.history ∧
    (es.foldl store_cmp_result st).historyFile = st.historyFile := by
  induction es generalizing st with
  | nil => exact absurd rfl h
  | cons e es ih =>
    rw [List.foldl_cons]
    have hf := store_cmp_result_fields st e
    by_cases hes : es = []
    · subst hes
      simpa using hf
    · have ihs := ih (store_cmp_result st e) hes
      refine ⟨?_, ?_, ?_, ?_⟩
      · rw [ihs.1, hf.1, lastN_append]
        congr 1
        simp
      · rw [ihs.2.1, hf.1, lastN_append]
        congr 1
        simp
      · rw [ihs.2.2.1, hf.2.2.1]
      · rw [ihs.2.2.2, hf.2.2.2]

lemma hist_fold_fields (hs : List CompareHistoryEntry) (st : PersistState)
    (h : hs ≠ []) :
    (hs.foldl histAppendSave st).history = st.history ++ hs ∧
    (hs.foldl histAppendSave st).historyFile =
      lastN MAX_CMP_HISTORY_ENTRIES (st.history ++ hs) ∧
    (hs.foldl histAppendSave st).results = st.results ∧
    (hs.foldl histAppendSave st).resultsFile = st.resultsFile := by
  induction hs generalizing st with
  | nil => exact absurd rfl h
  | cons e es ih =>
    rw [List.foldl_cons]
    by_cases hes : es = []
    · subst hes
      simp [histAppendSave, save_cmp_history]
    · have ihs := ih (histAppendSave st e) hes
      have hfield : (histAppendSave st e).history = st.history ++ [e] := rfl
      refine ⟨?_, ?_, ihs.2.2.1, ihs.2.2.2⟩
      · rw [ihs.1, hfield]
        simp
      · rw [ihs.2.1, hfield]
        congr 1
        simp

/-- C9: after any nonempty sequence of stored pair records and any nonempty
sequence of batch history appends, each persisted log equals exactly the
most recent cap-many entries of everything ever appended — the oldest are
evicted — and therefore never exceeds its cap (400 records, 200 history
entries). -/
theorem persisted_logs_bounded (es : List CompareRecord)
    (hs : List CompareHistoryEntry) (st : PersistState)
    (hes : es ≠ []) (hhs : hs ≠ []) :
    (es.foldl store_cmp_result st).resultsFile =
      lastN MAX_CMP_RESULTS_ENTRIES (st.results ++ es) ∧
    (es.foldl store_cmp_result st).resultsFile.length ≤ MAX_CMP_RESULTS_ENTRIES ∧
    (hs.foldl histAppendSave st).historyFile =
      lastN MAX_CMP_HISTORY_ENTRIES (st.history ++ hs) ∧
    (hs.foldl histAppendSave st).historyFile.length ≤ MAX_CMP_HISTORY_ENTRIES := by
  have h1 := store_fold_fields es st hes
  have h2 := hist_fold_fields hs st hhs
  refine ⟨h1.2.1, ?_, h2.2.1, ?_⟩
  · rw [h1.2.1]
    exact lastN_length_le _ _
  · rw [h2.2.1]
    exact lastN_length_le _ _

theorem persisted_logs_bounded_witness :
    ([(⟨'0', '1', 0, 0, [], []⟩ : CompareRecord)].foldl store_cmp_result
        initPersist).resultsFile.length ≤ MAX_CMP_RESULTS_ENTRIES ∧
    ([(⟨[]⟩ : CompareHistoryEntry)].foldl histAppendSave
        initPersist).historyFile.length ≤ MAX_CMP_HISTORY_ENTRIES :=
  ⟨(persisted_logs_bounded [⟨'0', '1', 0, 0, [], []⟩] [⟨[]⟩] initPersist
      (by simp) (by simp)).2.1,
   (persisted_logs_bounded [⟨'0', '1', 0, 0, [], []⟩] [⟨[]⟩] initPersist
      (by simp) (by simp)).2.2.2⟩

/-- Two dump slots differing in one byte, for the C4 batch. -/
def c4Slots : Char → Option (List Str) :=
  fun c =>
    if c = '0' then some [(("00: aa").toList)]
    else if c = '1' then some [(("00: ab").toList)] else none

lemma multi_steps_nil (slots : Char → Option (List Str)) (st : PersistState)
    (session : List PairStat) : multi_steps slots st session [] = ((st, session), []) := rfl

lemma multi_steps_cons (slots : Char → Option (List Str)) (st : PersistState)
    (session : List PairStat) (p : Char × Char) (ps : List (Char × Char)) :
    multi_steps slots st session (p :: ps) =
      ((multi_steps slots (multi_step slots st session p).1
          (multi_step slots st session p).2 ps).1,
       (multi_step slots st session p).1 ::
         (multi_steps slots (multi_step slots st session p).1
           (multi_step slots st session p).2 ps).2) := rfl

lemma multi_step_history (slots : Char → Option (List Str)) (st : PersistState)
    (session : List PairStat) (p : Char × Char) :
    (multi_step slots st session p).1.history = st.history ∧
    (multi_step slots st session p).1.historyFile = st.historyFile := by
  unfold multi_step dump_compare_single_slots
  rcases h1 : slotFull slots p.1 with _ | da <;>
    rcases h2 : slotFull slots p.2 with _ | db <;>
    simp [h1, h2]
  exact ⟨(store_cmp_result_fields st _).2.2.1, (store_cmp_result_fields st _).2.2.2⟩

lemma multi_steps_snapshots (slots : Char → Option (List Str))
    (pairs : List (Char × Char)) : ∀ (st : PersistState)
    (session : List PairStat) (i : Nat) (d : PersistState), i < pairs.length →
    (multi_steps slots st session pairs).2.getD i d =
      (multi_steps slots st session (pairs.take (i + 1))).1.1 := by
  induction pairs with
  | nil =>
    intro st session i d h
    simp at h
  | cons p ps ih =>
    intro st session i d h
    cases i with
    | zero =>
      rw [multi_steps_cons]
      simp only [List.getD_cons_zero, List.take_succ_cons, List.take_zero]
      rw [multi_steps_cons, multi_steps_nil]
    | succ i =>
      have h' : i < ps.length := by simpa using h
      rw [multi_steps_cons]
      simp only [List.getD_cons_succ, List.take_succ_cons]
      rw [multi_steps_cons]
      exact ih (multi_step slots st session p).1 (multi_step slots st session p).2 i d h'

lemma multi_steps_history (slots : Char → Option (List Str))
    (pairs : List (Char × Char)) : ∀ (st : PersistState) (session : List PairStat),
    ∀ s ∈ (multi_steps slots st session pairs).2,
      s.history = st.history ∧ s.historyFile = st.historyFile := by
  induction pairs with
  | nil =>
    intro st session s hs
    rw [multi_steps_nil] at hs
    simp at hs
  | cons p ps ih =>
    intro st session s hs
    rw [multi_steps_cons] at hs
    have hh := multi_step_history slots st session p
    rcases List.mem_cons.mp hs with rfl | hm
    · exact hh
    · have := ih (multi_step slots st session p).1 (multi_step slots st session p).2 s hm
      exact ⟨this.1.trans hh.1, this.2.trans hh.2⟩

set_option maxRecDepth 8192

/-- C4 counterexample: in a two-pair batch over populated slots, the
persisted state visible right after the first pair already holds the CompareRecord
of that pair, but holds no CompareHistoryEntry at all — the single history
entry appears (and is persisted) only at the end of the batch. -/
theorem multi_compare_claim_counterexample :
    ((multi_steps c4Slots initPersist [] [('0', '1'), ('0', '1')]).2.headD
        initPersist).resultsFile.length = 1 ∧
    ((multi_steps c4Slots initPersist [] [('0', '1'), ('0', '1')]).2.headD
        initPersist).historyFile = [] ∧
    ((multi_steps c4Slots initPersist [] [('0', '1'), ('0', '1')]).2.headD
        initPersist).history = [] ∧
    (multi_dump_compare c4Slots [('0', '1'), ('0', '1')]
        initPersist).historyFile.length = 1 :=
  ⟨by decide, by decide, by decide, by decide⟩

/-- C4 corrected: the CompareRecord of each pair is appended and persisted
immediately after that pair completes — the state snapshot visible after
pair i equals the full processing of the first i pairs, nothing deferred —
but the single CompareHistoryEntry covering the batch is appended and
persisted only once, at the end of the batch; every mid-batch snapshot still
carries the initial history. -/
theorem multi_compare_amended (slots : Char → Option (List Str))
    (pairs : List (Char × Char)) (st : PersistState) :
    (∀ (i : Nat) (d : PersistState), i < pairs.length →
      (multi_steps slots st [] pairs).2.getD i d =
        (multi_steps slots st [] (pairs.take (i + 1))).1.1) ∧
    (∀ s ∈ (multi_steps slots st [] pairs).2,
      s.history = st.history ∧ s.historyFile = st.historyFile) ∧
    (pairs ≠ [] →
      (multi_dump_compare slots pairs st).history =
        (multi_steps slots st [] pairs).1.1.history ++
          [⟨(multi_steps slots st [] pairs).1.2⟩] ∧
      (multi_dump_compare slots pairs st).historyFile =
        lastN MAX_CMP_HISTORY_ENTRIES
          ((multi_steps slots st [] pairs).1.1.history ++
            [⟨(multi_steps slots st [] pairs).1.2⟩])) := by
  refine ⟨fun i d h => multi_steps_snapshots slots pairs st [] i d h,
    multi_steps_history slots pairs st [],
    fun hne => ?_⟩
  unfold multi_dump_compare
  rw [if_neg (by simpa using hne)]
  exact ⟨rfl, rfl⟩

theorem multi_compare_amended_witness :
    (multi_steps c4Slots initPersist [] [('0', '1'), ('0', '1')]).2.getD 0
        initPersist =
      (multi_steps c4Slots initPersist [] ([('0', '1'), ('0', '1')].take 1)).1.1 ∧
    (multi_dump_compare c4Slots [('0', '1'), ('0', '1')] initPersist).history =
      (multi_steps c4Slots initPersist [] [('0', '1'), ('0', '1')]).1.1.history ++
        [⟨(multi_steps c4Slots initPersist [] [('0', '1'), ('0', '1')]).1.2⟩] :=
  ⟨(multi_compare_amended c4Slots [('0', '1'), ('0', '1')] initPersist).1 0
      initPersist (by decide),
   ((multi_compare_amended c4Slots [('0', '1'), ('0', '1')] initPersist).2.2
      (by decide)).1⟩
